import Mathlib

/-!
Verification development for the csvpeek repository (Rust sources under
`src/`).  The Rust code is shallowly embedded: Rust `&str` values become
`List Char` (byte indices and char indices agree on the ASCII inputs the
claims exercise), Rust `f64` becomes an explicit model `F64` that keeps
finite values as exact normalized rationals and represents `NaN` and the
infinities as separate constructors (IEEE rounding of finite results is
outside the model; every arithmetic step a claim depends on is exact in
binary64 as well), and `HashMap`/`HashSet` contents become association
lists in insertion order, with the unspecified `HashMap` iteration order
modelled by an explicit list parameter that is a permutation of the
contents.  Fallible Rust code returns `Except`; a Rust panic is modelled
as `Option.none`.
-/

set_option maxRecDepth 8192
set_option maxHeartbeats 1000000

deriving instance DecidableEq for Except

namespace Csvpeek

/-- Rust `&str` is embedded as a list of characters. -/
abbrev Str := List Char

/-- Rust `str::trim`: drop leading and trailing whitespace
(`char::is_whitespace`; the ASCII subset suffices for the claims). -/
def strTrim (s : Str) : Str :=
  ((s.dropWhile Char.isWhitespace).reverse.dropWhile Char.isWhitespace).reverse

/-- Rust `str::to_lowercase` (ASCII subset). -/
def strLower (s : Str) : Str := s.map Char.toLower

/-- Byte-lexicographic strict order on strings (Rust `String` `Ord`;
UTF-8 byte order coincides with code-point order). -/
def strLt : Str → Str → Bool
  | [], [] => false
  | [], _ :: _ => true
  | _ :: _, [] => false
  | a :: as, b :: bs => if a < b then true else if b < a then false else strLt as bs

/-- `a <= b` for strings, derived from `strLt` as in Rust `Ord`. -/
def strLe (a b : Str) : Bool := !(strLt b a)

/-- First index at which `pat` occurs as a contiguous substring
(Rust `str::find` with a literal pattern). -/
def findSub (s pat : Str) : Option Nat :=
  go s 0
where
  go : Str → Nat → Option Nat
    | [], i => if pat = [] ∧ s = [] ∧ i = 0 then some 0 else none
    | c :: rest, i =>
      if pat.isPrefixOf (c :: rest) then some i else go rest (i + 1)

/-- Split a list at every occurrence of the separator character
(Rust `str::split(',')`). -/
def splitOnChar (sep : Char) (s : Str) : List Str :=
  go s []
where
  go : Str → Str → List Str
    | [], acc => [acc.reverse]
    | c :: rest, acc =>
      if c = sep then acc.reverse :: go rest [] else go rest (c :: acc)

/-! ### Exact rationals

Kernel-computable normalized rationals (numerator, positive denominator,
reduced by `Nat.gcd`).  They model the values of finite `f64` numbers
exactly; IEEE rounding is not modelled. -/

structure Q where
  num : Int
  den : Nat
  deriving DecidableEq

namespace Q

/-- Build a normalized rational from an integer numerator and a (nonzero)
integer denominator. -/
def norm2 (n d : Int) : Q :=
  if d = 0 then ⟨0, 1⟩
  else
    let n' := if d < 0 then -n else n
    let dn : Nat := d.natAbs
    let g := Nat.gcd n'.natAbs dn
    ⟨n' / (g : Int), dn / g⟩

def ofInt (n : Int) : Q := ⟨n, 1⟩

def ofNat (n : Nat) : Q := ⟨(n : Int), 1⟩

def add (a b : Q) : Q := norm2 (a.num * b.den + b.num * a.den) ((a.den : Int) * b.den)

def sub (a b : Q) : Q := norm2 (a.num * b.den - b.num * a.den) ((a.den : Int) * b.den)

def mul (a b : Q) : Q := norm2 (a.num * b.num) ((a.den : Int) * b.den)

def div (a b : Q) : Q := norm2 (a.num * b.den) ((a.den : Int) * b.num)

def neg (a : Q) : Q := ⟨-a.num, a.den⟩

def blt (a b : Q) : Bool := decide (a.num * b.den < b.num * a.den)

def ble (a b : Q) : Bool := decide (a.num * b.den ≤ b.num * a.den)

def abs (a : Q) : Q := ⟨a.num.natAbs, a.den⟩

def isNeg (a : Q) : Bool := decide (a.num < 0)

/-- Floor of a rational as an integer (denominator is positive). -/
def floorI (a : Q) : Int := a.num.fdiv a.den

/-- Ceiling of a rational as an integer. -/
def ceilI (a : Q) : Int := -((-a.num).fdiv a.den)

/-- Scale by a power of ten (used when reading decimal literals). -/
def mulPow10 (a : Q) (e : Int) : Q :=
  if 0 ≤ e then norm2 (a.num * (10 ^ e.toNat : Nat)) a.den
  else norm2 a.num ((a.den : Int) * (10 ^ (-e).toNat : Nat))

end Q

/-! ### The `f64` model -/

/-- Model of Rust `f64`: `NaN`, signed infinities, and finite values kept
as exact rationals. -/
inductive F64 where
  | nan : F64
  | inf (neg : Bool) : F64
  | fin (q : Q) : F64
  deriving DecidableEq

namespace F64

def zero : F64 := fin (Q.ofNat 0)

def ofNat (n : Nat) : F64 := fin (Q.ofNat n)

/-- `PartialOrd::partial_cmp` on `f64`: `NaN` is incomparable. -/
def partialCmp : F64 → F64 → Option Ordering
  | nan, _ => none
  | _, nan => none
  | inf a, inf b =>
    if a = b then some .eq else if a then some .lt else some .gt
  | inf a, fin _ => if a then some .lt else some .gt
  | fin _, inf b => if b then some .gt else some .lt
  | fin a, fin b =>
    if a.blt b then some .lt else if b.blt a then some .gt else some .eq

def blt (a b : F64) : Bool := partialCmp a b = some .lt

def ble (a b : F64) : Bool := partialCmp a b = some .lt ∨ partialCmp a b = some .eq

def bge (a b : F64) : Bool := partialCmp a b = some .gt ∨ partialCmp a b = some .eq

def bgt (a b : F64) : Bool := partialCmp a b = some .gt

def add : F64 → F64 → F64
  | nan, _ => nan
  | _, nan => nan
  | inf a, inf b => if a = b then inf a else nan
  | inf a, fin _ => inf a
  | fin _, inf b => inf b
  | fin a, fin b => fin (a.add b)

def neg : F64 → F64
  | nan => nan
  | inf a => inf (!a)
  | fin a => fin a.neg

def sub (a b : F64) : F64 := add a (neg b)

def mul : F64 → F64 → F64
  | nan, _ => nan
  | _, nan => nan
  | inf a, inf b => inf (a != b)
  | inf a, fin q => if q.num = 0 then nan else inf (a != q.isNeg)
  | fin q, inf b => if q.num = 0 then nan else inf (b != q.isNeg)
  | fin a, fin b => fin (a.mul b)

def div : F64 → F64 → F64
  | nan, _ => nan
  | _, nan => nan
  | inf _, inf _ => nan
  | inf a, fin q => inf (a != q.isNeg)
  | fin q, inf _ => if q.num = 0 then fin (Q.ofNat 0) else fin (Q.ofNat 0)
  | fin a, fin b =>
    if b.num = 0 then (if a.num = 0 then nan else inf (a.isNeg)) else fin (a.div b)

def abs : F64 → F64
  | nan => nan
  | inf _ => inf false
  | fin a => fin a.abs

def floor : F64 → F64
  | nan => nan
  | inf a => inf a
  | fin a => fin (Q.ofInt a.floorI)

def ceil : F64 → F64
  | nan => nan
  | inf a => inf a
  | fin a => fin (Q.ofInt a.ceilI)

/-- Rust `as usize` cast on `f64` (saturating; `NaN` becomes `0`). -/
def toUsize : F64 → Nat
  | nan => 0
  | inf a => if a then 0 else 2 ^ 64 - 1
  | fin q => if q.num < 0 then 0 else q.floorI.toNat

/-- `f64::EPSILON` = 2^-52 (exactly representable). -/
def epsilon : F64 := fin (Q.norm2 1 (2 ^ 52))

def isNan : F64 → Bool
  | nan => true
  | _ => false

/-- `f64::is_finite`. -/
def isFinite : F64 → Bool
  | fin _ => true
  | _ => false

end F64

/-! ### Numeric literal parsing (Rust `str::parse`) -/

def digitsToNat (ds : Str) : Nat :=
  ds.foldl (fun acc c => acc * 10 + (c.toNat - 48)) 0

/-- Rust `str::parse::<i64>`: optional single sign, then one or more ASCII
digits, result must fit in a signed 64-bit integer. -/
def parseI64 (s : Str) : Option Int :=
  match s with
  | [] => none
  | c :: rest =>
    let (neg, ds) :=
      if c = '-' then (true, rest) else if c = '+' then (false, rest) else (false, s)
    if ds = [] then none
    else if !ds.all Char.isDigit then none
    else
      let m := digitsToNat ds
      if neg then
        if m ≤ 2 ^ 63 then some (-(m : Int)) else none
      else
        if m ≤ 2 ^ 63 - 1 then some (m : Int) else none

/-- Smallest finite-magnitude bound that rounds to infinity in binary64:
`2^1024 - 2^970`. -/
def f64OverflowBound : Q := Q.ofNat (2 ^ 1024 - 2 ^ 970)

/-- Decimal part of the Rust `f64` grammar: digits, optional fraction,
optional exponent; at least one mantissa digit; the whole input must be
consumed.  Finite values are exact (no rounding); magnitudes at or above
the binary64 overflow threshold become infinity as in Rust. -/
def parseF64Dec (neg : Bool) (t : Str) : Option F64 :=
  let d1 := t.takeWhile Char.isDigit
  let r1 := t.dropWhile Char.isDigit
  let (d2, r2) :=
    match r1 with
    | '.' :: r => (r.takeWhile Char.isDigit, r.dropWhile Char.isDigit)
    | _ => ([], r1)
  let hasDot := match r1 with | '.' :: _ => true | _ => false
  if d1 = [] ∧ (¬ hasDot ∨ d2 = []) then none
  else if d1 = [] ∧ d2 = [] then none
  else
    let mant : Q :=
      Q.norm2 ((digitsToNat d1 * 10 ^ d2.length + digitsToNat d2 : Nat) : Int)
        ((10 ^ d2.length : Nat) : Int)
    let expPart : Option Int :=
      match r2 with
      | [] => some 0
      | e :: r3 =>
        if e = 'e' ∨ e = 'E' then
          match r3 with
          | [] => none
          | c :: r4 =>
            let (eneg, eds) :=
              if c = '-' then (true, r4)
              else if c = '+' then (false, r4) else (false, r3)
            if eds = [] then none
            else if !eds.all Char.isDigit then none
            else some (if eneg then -(digitsToNat eds : Int) else (digitsToNat eds : Int))
        else none
    match expPart with
    | none => none
    | some e =>
      let q := mant.mulPow10 e
      let q := if neg then q.neg else q
      if f64OverflowBound.ble q.abs then some (F64.inf neg) else some (F64.fin q)

/-- Rust `str::parse::<f64>`: optional sign, then (case-insensitively)
`inf`, `infinity`, `nan`, or a decimal number. -/
def parseF64 (s : Str) : Option F64 :=
  match s with
  | [] => none
  | c :: rest =>
    let (neg, t) :=
      if c = '-' then (true, rest) else if c = '+' then (false, rest) else (false, s)
    let low := strLower t
    if low = ("inf").data ∨ low = ("infinity").data then some (F64.inf neg)
    else if low = ("nan").data then some F64.nan
    else parseF64Dec neg t

/-! ### `src/types.rs` -/

/-- `types.rs` `DataType`. -/
inductive DataType where
  | integer
  | float
  | boolean
  | string
  deriving DecidableEq

/-- `types.rs` `Value` (the comparable form of one classified cell; the
source keeps the float as a bit pattern, here it is the `F64` model). -/
inductive Value where
  | null
  | integer (i : Int)
  | float (f : F64)
  | boolean (b : Bool)
  | string
  deriving DecidableEq

/-- `types.rs` `parse_value`. -/
def parse_value (s : Str) : DataType × Value :=
  let trimmed := strTrim s
  if trimmed = [] then (DataType.string, Value.null)
  else if strLower trimmed = ("true").data ∨ strLower trimmed = ("false").data then
    (DataType.boolean, Value.boolean (strLower trimmed = ("true").data))
  else
    match parseI64 trimmed with
    | some i => (DataType.integer, Value.integer i)
    | none =>
      match parseF64 trimmed with
      | some f =>
        if f.isFinite then (DataType.float, Value.float f)
        else (DataType.string, Value.string)
      | none => (DataType.string, Value.string)

/-- `types.rs` `is_null`. -/
def is_null (s : Str) : Bool :=
  let trimmed := strLower (strTrim s)
  trimmed = [] ∨ trimmed = ("null").data ∨ trimmed = ("na").data ∨ trimmed = ("n/a").data

/-- The classified type of one cell (first component of `parse_value`). -/
def classifyType (s : Str) : DataType := (parse_value s).1

/-! ### `src/schema.rs` -/

/-- `schema.rs` `ColumnTypeAccumulator`. -/
structure ColumnTypeAccumulator where
  name : Str
  total_count : Nat
  null_count : Nat
  integer_count : Nat
  float_count : Nat
  boolean_count : Nat
  string_count : Nat
  deriving DecidableEq

namespace ColumnTypeAccumulator

def new (name : Str) : ColumnTypeAccumulator := ⟨name, 0, 0, 0, 0, 0, 0⟩

/-- `ColumnTypeAccumulator::add_value`. -/
def add_value (acc : ColumnTypeAccumulator) (value : Str) : ColumnTypeAccumulator :=
  let acc := { acc with total_count := acc.total_count + 1 }
  if is_null value then { acc with null_count := acc.null_count + 1 }
  else
    match (parse_value value).1 with
    | .integer => { acc with integer_count := acc.integer_count + 1 }
    | .float => { acc with float_count := acc.float_count + 1 }
    | .boolean => { acc with boolean_count := acc.boolean_count + 1 }
    | .string => { acc with string_count := acc.string_count + 1 }

/-- `ColumnTypeAccumulator::infer_type`. -/
def infer_type (acc : ColumnTypeAccumulator) : DataType :=
  let non_null := acc.total_count - acc.null_count
  if non_null = 0 then .string
  else if acc.integer_count = non_null then .integer
  else if acc.integer_count + acc.float_count = non_null then .float
  else if acc.boolean_count = non_null then .boolean
  else .string

end ColumnTypeAccumulator

/-- The schema accumulator obtained by streaming a list of cells into one
column. -/
def schemaAccOf (cells : List Str) : ColumnTypeAccumulator :=
  cells.foldl ColumnTypeAccumulator.add_value (ColumnTypeAccumulator.new [])

/-! ### Stable sorting

Rust `slice::sort_by` is a stable sort; a stable sort by a total preorder
has a unique output, embedded here as stable insertion sort (a new element
is placed after every element the comparator does not order strictly after
it). -/

/-- Insert `x` after all currently placed elements `y` with `le y x`. -/
def insertStable (le : α → α → Bool) (x : α) : List α → List α
  | [] => [x]
  | y :: ys => if le y x then y :: insertStable le x ys else x :: y :: ys

/-- Stable sort by a total boolean preorder. -/
def stableSort (le : α → α → Bool) (l : List α) : List α :=
  l.foldl (fun acc x => insertStable le x acc) []

/-! ### `src/stats.rs` -/

/-- `stats.rs` `ColumnAccumulator`.  `unique_values` and `value_counts`
keep the `HashSet`/`HashMap` contents as insertion-ordered lists. -/
structure ColumnAccumulator where
  name : Str
  count : Nat
  null_count : Nat
  data_type : Option DataType
  sum : F64
  sum_squares : F64
  numeric_count : Nat
  min_numeric : Option F64
  max_numeric : Option F64
  min_string : Option Str
  max_string : Option Str
  min_len : Option Nat
  max_len : Option Nat
  unique_values : List Str
  numeric_values : List F64
  value_counts : List (Str × Nat)
  deriving DecidableEq

/-- The inline type-promotion match in `ColumnAccumulator::add_value`
(arms in source order). -/
def statPromote (cur : Option DataType) (t : DataType) : DataType :=
  match cur, t with
  | none, t => t
  | some .integer, .float => .float
  | some .float, .integer => .float
  | some .integer, .integer => .integer
  | some .float, .float => .float
  | some .boolean, .boolean => .boolean
  | some _, .string => .string
  | some .string, _ => .string
  | some t, _ => t

/-- `HashSet::insert` on the insertion-ordered contents list. -/
def setInsert (l : List Str) (v : Str) : List Str :=
  if l.contains v then l else l ++ [v]

/-- `HashMap::entry(v).or_insert(0) += 1` on the insertion-ordered
contents list. -/
def bumpCount : List (Str × Nat) → Str → List (Str × Nat)
  | [], v => [(v, 1)]
  | (k, n) :: rest, v =>
    if k = v then (k, n + 1) :: rest else (k, n) :: bumpCount rest v

namespace ColumnAccumulator

def new (name : Str) : ColumnAccumulator :=
  ⟨name, 0, 0, none, F64.zero, F64.zero, 0, none, none, none, none, none, none, [], [], []⟩

/-- `ColumnAccumulator::add_value`. -/
def add_value (acc : ColumnAccumulator) (value : Str) : ColumnAccumulator :=
  let acc := { acc with count := acc.count + 1 }
  if is_null value then { acc with null_count := acc.null_count + 1 }
  else
    let trimmed := strTrim value
    let dtype := (parse_value trimmed).1
    let acc := { acc with data_type := some (statPromote acc.data_type dtype) }
    let acc :=
      match parseF64 trimmed with
      | some num =>
        { acc with
          sum := acc.sum.add num
          sum_squares := acc.sum_squares.add (num.mul num)
          numeric_count := acc.numeric_count + 1
          numeric_values := acc.numeric_values ++ [num]
          min_numeric := some (match acc.min_numeric with
            | none => num
            | some m => if num.blt m then num else m)
          max_numeric := some (match acc.max_numeric with
            | none => num
            | some m => if m.blt num then num else m) }
      | none => acc
    let len := trimmed.length
    { acc with
      min_len := some (match acc.min_len with | none => len | some m => min m len)
      max_len := some (match acc.max_len with | none => len | some m => max m len)
      unique_values := setInsert acc.unique_values trimmed
      value_counts := bumpCount acc.value_counts trimmed
      min_string := some (match acc.min_string with
        | none => trimmed
        | some m => if strLt trimmed m then trimmed else m)
      max_string := some (match acc.max_string with
        | none => trimmed
        | some m => if strLt m trimmed then trimmed else m) }

end ColumnAccumulator

/-- The stats accumulator obtained by streaming a list of cells into one
column. -/
def statsAccOf (cells : List Str) : ColumnAccumulator :=
  cells.foldl ColumnAccumulator.add_value (ColumnAccumulator.new [])

/-- `stats.rs` `percentile` (linear interpolation on sorted data).
Out-of-range indices read a default (the source would panic there; the
indices are in bounds for the percentiles `finalize` asks for). -/
def percentile (sorted_data : List F64) (p : F64) : F64 :=
  if sorted_data = [] then F64.zero
  else if sorted_data.length = 1 then sorted_data.getD 0 F64.zero
  else
    let n := sorted_data.length
    let rank := (p.div (F64.ofNat 100)).mul (F64.ofNat (n - 1))
    let lower_idx := rank.floor.toUsize
    let upper_idx := rank.ceil.toUsize
    if lower_idx = upper_idx then sorted_data.getD lower_idx F64.zero
    else
      let weight := rank.sub (F64.ofNat lower_idx)
      ((sorted_data.getD lower_idx F64.zero).mul ((F64.ofNat 1).sub weight)).add
        ((sorted_data.getD upper_idx F64.zero).mul weight)

/-- The comparator `|a, b| a.partial_cmp(b).unwrap()` used to sort the
numeric buffer: comparing against `NaN` panics. -/
def sortNumeric (l : List F64) : Option (List F64) :=
  if 2 ≤ l.length ∧ l.contains F64.nan then none
  else some (stableSort F64.ble l)

/-- The comparator `|a, b| b.1.cmp(&a.1)` (descending by count) used for
the top-5 list. -/
def countGe (a b : Str × Nat) : Bool := decide (b.2 ≤ a.2)

/-- The top-values computation in `finalize`: stable sort by descending
count, keep the first five. -/
def topValuesOf (counts : List (Str × Nat)) : List (Str × Nat) :=
  (stableSort countGe counts).take 5

/-- A finalized `types.rs` `ColumnStats` record.  `min`/`max` keep the
value `format_number`/the string branch would render (text formatting is
presentation and is not modelled). -/
structure ColumnStats where
  name : Str
  data_type : DataType
  count : Nat
  null_count : Nat
  null_rate : F64
  min : Option (F64 ⊕ Str)
  max : Option (F64 ⊕ Str)
  mean : Option F64
  sum : Option F64
  std : Option F64
  min_len : Option Nat
  max_len : Option Nat
  unique_count : Option Nat
  median : Option F64
  p25 : Option F64
  p75 : Option F64
  top_values : Option (List (Str × Nat))
  deriving DecidableEq

/-- `ColumnAccumulator::finalize`.  `vcIter` models the unspecified
iteration order of the `value_counts` `HashMap` (`into_iter`): any
permutation of the contents.  `none` models a panic (the
`partial_cmp(..).unwrap()` inside the percentile sort).  The `std` field
stores the sample variance (its square root is irrational in general and
no claim inspects the field). -/
def ColumnAccumulator.finalize (acc : ColumnAccumulator) (vcIter : List (Str × Nat)) :
    Option ColumnStats :=
  let total := acc.count
  let null_rate :=
    if 0 < total then
      ((F64.ofNat acc.null_count).div (F64.ofNat total)).mul (F64.ofNat 100)
    else F64.zero
  let data_type := acc.data_type.getD .string
  match sortNumeric acc.numeric_values with
  | none => none
  | some sorted =>
    let (median, p25, p75) :=
      if acc.numeric_values ≠ [] then
        (some (percentile sorted (F64.ofNat 50)),
         some (percentile sorted (F64.ofNat 25)),
         some (percentile sorted (F64.ofNat 75)))
      else (none, none, none)
    let top_values :=
      if acc.value_counts ≠ [] then some (topValuesOf vcIter) else none
    let (minV, maxV, mean, sum, std) :=
      match data_type with
      | .integer | .float =>
        let mean :=
          if 0 < acc.numeric_count then some (acc.sum.div (F64.ofNat acc.numeric_count))
          else none
        let std :=
          if 1 < acc.numeric_count then
            let n := F64.ofNat acc.numeric_count
            some ((acc.sum_squares.sub ((acc.sum.mul acc.sum).div n)).div
              (n.sub (F64.ofNat 1)))
          else none
        let sum := if 0 < acc.numeric_count then some acc.sum else none
        (acc.min_numeric.map Sum.inl, acc.max_numeric.map Sum.inl, mean, sum, std)
      | _ => (acc.min_string.map Sum.inr, acc.max_string.map Sum.inr, none, none, none)
    some
      { name := acc.name
        data_type := data_type
        count := total - acc.null_count
        null_count := acc.null_count
        null_rate := null_rate
        min := minV
        max := maxV
        mean := mean
        sum := sum
        std := std
        min_len := acc.min_len
        max_len := acc.max_len
        unique_count := some acc.unique_values.length
        median := median
        p25 := p25
        p75 := p75
        top_values := top_values }

/-! ### `src/error.rs` -/

/-- `error.rs` `CsvpeekError` (the variants the core raises; a
`ColumnSuggestion` is its suggested name). -/
inductive CsvpeekError where
  | columnNotFound (name : Str) (suggestion : Option Str)
  | invalidFilter (msg : Str)
  deriving DecidableEq

/-- `error.rs` `levenshtein_distance`: the source fills the standard DP
table for this recurrence; embedded row by row (each new row is computed
from the previous one), which computes the same table. -/
def levRowAux (c : Char) : Str → Nat → List Nat → Nat → List Nat
  | [], _, _, _ => []
  | _ :: _, _, [], _ => []
  | b :: bs, diag, aboveCur :: aboveRest, left =>
    let cost := if c = b then 0 else 1
    let cur := min (min (aboveCur + 1) (left + 1)) (diag + cost)
    cur :: levRowAux c bs aboveCur aboveRest cur

def levenshtein_distance (a b : Str) : Nat :=
  let m := a.length
  let n := b.length
  if m = 0 then n
  else if n = 0 then m
  else
    let row0 := List.range (n + 1)
    let finalRow := a.foldl
      (fun row c =>
        match row with
        | [] => []
        | r0 :: rest => (r0 + 1) :: levRowAux c b r0 rest (r0 + 1))
      row0
    finalRow.getLastD 0

/-- `error.rs` `find_similar_column`: case-insensitive exact match first,
else the minimum-edit-distance header among those at distance at most 2
(Rust `min_by_key` keeps the first minimal element on ties). -/
def find_similar_column (name : Str) (headers : List Str) : Option Str :=
  let nameLower := strLower name
  match headers.find? (fun h => strLower h = nameLower) with
  | some h => some h
  | none =>
    let near := headers.filter (fun h => levenshtein_distance nameLower (strLower h) ≤ 2)
    near.foldl
      (fun acc h =>
        match acc with
        | none => some h
        | some m =>
          if levenshtein_distance nameLower (strLower h) <
              levenshtein_distance nameLower (strLower m) then some h else some m)
      none

/-! ### `src/filter.rs` -/

/-- `filter.rs` `CompareOp`. -/
inductive CompareOp where
  | eq
  | ne
  | lt
  | le
  | gt
  | ge
  deriving DecidableEq

/-- `filter.rs` `Value` (the right-hand literal of a comparison). -/
inductive FValue where
  | str (s : Str)
  | number (n : F64)
  deriving DecidableEq

/-- `filter.rs` `Expr`.  A `matches` node stores the regex pattern text;
the compiled `Regex` lives in the external regex crate. -/
inductive Expr where
  | and (l r : Expr)
  | or (l r : Expr)
  | not (e : Expr)
  | compare (col : Str) (op : CompareOp) (v : FValue)
  | contains (col : Str) (sub : Str)
  | matches (col : Str) (pattern : Str)
  | inList (col : Str) (vals : List Str)
  | isNull (col : Str)
  | isNotNull (col : Str)
  deriving DecidableEq

/-- The `column_indices` map built by `Filter::parse`: inserting every
`(header, index)` pair into a `HashMap` in order leaves the **last**
index for a duplicated name. -/
def columnIndexMap (headers : List Str) : Str → Option Nat := fun name =>
  (headers.enum.filter (fun p => p.2 = name)).getLast?.map (·.1)

/-- `filter.rs` `find_operator`, scanning state machine (depth is `i32`
and may go negative; the operator test only happens in the wildcard arm,
exactly as in the source `match`). -/
def findOpAux (op : Str) : Str → Nat → Int → Bool → Bool → Option Nat
  | [], _, _, _, _ => none
  | c :: rest, i, depth, inString, escape =>
    if escape then findOpAux op rest (i + 1) depth inString false
    else if c = '\\' then findOpAux op rest (i + 1) depth inString true
    else if c = '"' then findOpAux op rest (i + 1) depth (!inString) escape
    else if c = '(' ∧ !inString then findOpAux op rest (i + 1) (depth + 1) inString escape
    else if c = ')' ∧ !inString then findOpAux op rest (i + 1) (depth - 1) inString escape
    else if !inString ∧ depth = 0 then
      if op.isPrefixOf (c :: rest) then some i
      else findOpAux op rest (i + 1) depth inString escape
    else findOpAux op rest (i + 1) depth inString escape

def find_operator (s op : Str) : Option Nat := findOpAux op s 0 0 false false

/-- `filter.rs` `parse_func_args`: split the argument text at the first
top-level comma and unquote the second argument. -/
def parse_func_args (s : Str) : Except CsvpeekError (Str × Str) :=
  go s 0 0 false false
where
  go : Str → Nat → Int → Bool → Bool → Except CsvpeekError (Str × Str)
    | [], _, _, _, _ => .error (.invalidFilter ("Invalid function arguments").data)
    | c :: rest, i, depth, inString, escape =>
      if escape then go rest (i + 1) depth inString false
      else if c = '\\' then go rest (i + 1) depth inString true
      else if c = '"' then go rest (i + 1) depth (!inString) escape
      else if (c = '[' ∨ c = '(') ∧ !inString then go rest (i + 1) (depth + 1) inString escape
      else if (c = ']' ∨ c = ')') ∧ !inString then go rest (i + 1) (depth - 1) inString escape
      else if c = ',' ∧ !inString ∧ depth = 0 then
        let col := strTrim (s.take i)
        let val := strTrim (s.drop (i + 1))
        let val :=
          if val.head? = some '"' ∧ val.getLast? = some '"' then (val.drop 1).dropLast
          else val
        .ok (col, val)
      else go rest (i + 1) depth inString escape

/-- `filter.rs` `parse_array`: strip brackets and split on every comma
(quotes are not respected here, as in the source). -/
def parse_array (s : Str) : Except CsvpeekError (List Str) :=
  let s := strTrim s
  if ¬ (s.head? = some '[' ∧ s.getLast? = some ']') then
    .error (.invalidFilter ("Expected array").data)
  else
    let inner := (s.drop 1).dropLast
    let items := (splitOnChar ',' inner).map (fun item =>
      let item := strTrim item
      if item.head? = some '"' ∧ item.getLast? = some '"' then (item.drop 1).dropLast
      else item)
    .ok (items.filter (fun item => item ≠ []))

/-- `filter.rs` `validate_column` (note: the raised `ColumnNotFound`
carries no suggestion). -/
def validate_column (col : Str) (columns : Str → Option Nat) : Except CsvpeekError Unit :=
  if (columns col).isSome then .ok () else .error (.columnNotFound col none)

/-- `filter.rs` `parse_function`: the five recognized function forms,
tried in source order.  Regex compilation (external crate) is modelled as
always succeeding with the pattern kept; no claim exercises an invalid
pattern. -/
def parse_function (s : Str) (columns : Str → Option Nat) :
    Except CsvpeekError (Option Expr) :=
  let s := strTrim s
  if ("contains(").data.isPrefixOf s ∧ s.getLast? = some ')' then do
    let (col, val) ← parse_func_args ((s.drop 9).dropLast)
    let _ ← validate_column col columns
    return some (Expr.contains col val)
  else if ("in(").data.isPrefixOf s ∧ s.getLast? = some ')' then do
    let (col, valsStr) ← parse_func_args ((s.drop 3).dropLast)
    let _ ← validate_column col columns
    let vals ← parse_array valsStr
    return some (Expr.inList col vals)
  else if ("is_null(").data.isPrefixOf s ∧ s.getLast? = some ')' then do
    let col := strTrim ((s.drop 8).dropLast)
    let _ ← validate_column col columns
    return some (Expr.isNull col)
  else if ("is_not_null(").data.isPrefixOf s ∧ s.getLast? = some ')' then do
    let col := strTrim ((s.drop 12).dropLast)
    let _ ← validate_column col columns
    return some (Expr.isNotNull col)
  else if ("matches(").data.isPrefixOf s ∧ s.getLast? = some ')' then do
    let (col, pattern) ← parse_func_args ((s.drop 8).dropLast)
    let _ ← validate_column col columns
    return some (Expr.matches col pattern)
  else
    .ok none

/-- `filter.rs` `parse_comparison`: the six operators are tried in source
order (`==`, `!=`, `<=`, `>=`, `<`, `>`) against the first occurrence
anywhere in the text. -/
def parse_comparison (s : Str) (columns : Str → Option Nat) : Except CsvpeekError Expr :=
  let ops : List (Str × CompareOp) :=
    [(("==").data, .eq), (("!=").data, .ne), (("<=").data, .le),
     ((">=").data, .ge), (("<").data, .lt), ((">").data, .gt)]
  go ops
where
  go : List (Str × CompareOp) → Except CsvpeekError Expr
    | [] => .error (.invalidFilter (("Cannot parse expression: ").data ++ s))
    | (opStr, op) :: rest =>
      match findSub s opStr with
      | some pos => do
        let col := strTrim (s.take pos)
        let valStr := strTrim (s.drop (pos + opStr.length))
        let _ ← validate_column col columns
        let value :=
          if valStr.head? = some '"' ∧ valStr.getLast? = some '"' then
            FValue.str ((valStr.drop 1).dropLast)
          else
            match parseF64 valStr with
            | some n => FValue.number n
            | none => FValue.str valStr
        return Expr.compare col op value
      | none => go rest

/-- `filter.rs` `parse_expr`, with structural fuel standing in for the
source's recursion on strictly shorter substrings (every recursive call
shrinks the trimmed text, so `length + 1` fuel at the top level never
runs out). -/
def parseExprFuel (columns : Str → Option Nat) : Nat → Str → Except CsvpeekError Expr
  | 0, _ => .error (.invalidFilter ("fuel").data)
  | fuel + 1, s =>
    let s := strTrim s
    match find_operator s (("||").data) with
    | some pos => do
      let left ← parseExprFuel columns fuel (s.take pos)
      let right ← parseExprFuel columns fuel (s.drop (pos + 2))
      return Expr.or left right
    | none =>
      match find_operator s (("&&").data) with
      | some pos => do
        let left ← parseExprFuel columns fuel (s.take pos)
        let right ← parseExprFuel columns fuel (s.drop (pos + 2))
        return Expr.and left right
      | none =>
        if s.head? = some '!' ∧ ¬ (("!=").data.isPrefixOf s) then do
          let inner ← parseExprFuel columns fuel (s.drop 1)
          return Expr.not inner
        else if s.head? = some '(' ∧ s.getLast? = some ')' then
          parseExprFuel columns fuel ((s.drop 1).dropLast)
        else do
          match ← parse_function s columns with
          | some funcExpr => return funcExpr
          | none => parse_comparison s columns

def parse_expr (s : Str) (columns : Str → Option Nat) : Except CsvpeekError Expr :=
  parseExprFuel columns (s.length + 1) s

/-- `Filter::parse`: build the column-index map from the header, then
parse. -/
def filterParse (exprStr : Str) (headers : List Str) : Except CsvpeekError Expr :=
  parse_expr exprStr (columnIndexMap headers)

/-- `filter.rs` `eval_compare`. -/
def eval_compare (cell : Str) (op : CompareOp) (val : FValue) : Bool :=
  match val with
  | .number n =>
    match parseF64 (strTrim cell) with
    | some cellNum =>
      match op with
      | .eq => ((cellNum.sub n).abs).blt F64.epsilon
      | .ne => ((cellNum.sub n).abs).bge F64.epsilon
      | .lt => cellNum.blt n
      | .le => cellNum.ble n
      | .gt => cellNum.bgt n
      | .ge => cellNum.bge n
    | none => false
  | .str s =>
    match op with
    | .eq => cell == s
    | .ne => cell != s
    | .lt => strLt cell s
    | .le => strLe cell s
    | .gt => strLt s cell
    | .ge => strLe s cell

/-- `filter.rs` `eval_expr`.  `rmatch` is the external regex crate's
`Regex::is_match` (an uninterpreted collaborator: no claim evaluates a
`matches` node). -/
def eval_expr (rmatch : Str → Str → Bool) (expr : Expr) (record : List Str)
    (columns : Str → Option Nat) : Bool :=
  match expr with
  | .and l r => eval_expr rmatch l record columns && eval_expr rmatch r record columns
  | .or l r => eval_expr rmatch l record columns || eval_expr rmatch r record columns
  | .not e => !eval_expr rmatch e record columns
  | .compare col op v => eval_compare (record.getD ((columns col).getD 0) []) op v
  | .contains col sub => (findSub (record.getD ((columns col).getD 0) []) sub).isSome
  | .matches col pattern => rmatch pattern (record.getD ((columns col).getD 0) [])
  | .inList col vals => vals.contains (record.getD ((columns col).getD 0) [])
  | .isNull col => is_null (record.getD ((columns col).getD 0) [])
  | .isNotNull col => !is_null (record.getD ((columns col).getD 0) [])

/-! ### Specification-side definitions

Each `spec...`/`..._spec` definition below transcribes the
specification's words (not the source) and exists only to be compared
with the corresponding source-derived definition. -/

/-- The top-level operator scanner as §4.4 of the specification describes
it: the depth counter is incremented on `(`/`[` and decremented on
`)`/`]`, only while not inside a quoted string, and a backslash escapes
the following character inside a string. -/
def findOpSpecAux (op : Str) : Str → Nat → Int → Bool → Bool → Option Nat
  | [], _, _, _, _ => none
  | c :: rest, i, depth, inString, escape =>
    if inString then
      if escape then findOpSpecAux op rest (i + 1) depth true false
      else if c = '\\' then findOpSpecAux op rest (i + 1) depth true true
      else if c = '"' then findOpSpecAux op rest (i + 1) depth false false
      else findOpSpecAux op rest (i + 1) depth true false
    else if depth = 0 ∧ op.isPrefixOf (c :: rest) then some i
    else if c = '"' then findOpSpecAux op rest (i + 1) depth true false
    else if c = '(' ∨ c = '[' then findOpSpecAux op rest (i + 1) (depth + 1) false false
    else if c = ')' ∨ c = ']' then findOpSpecAux op rest (i + 1) (depth - 1) false false
    else findOpSpecAux op rest (i + 1) depth false false

def find_operator_spec (s op : Str) : Option Nat := findOpSpecAux op s 0 0 false false

/-- The percentile rule as §4.3/claim C6 state it: rank =
`(p/100) * (n-1)`, value = the linear blend of the floor- and
ceil-ranked elements. -/
def specPercentile (data : List F64) (p : F64) : F64 :=
  let n := data.length
  let rank := (p.div (F64.ofNat 100)).mul (F64.ofNat (n - 1))
  let lower_idx := rank.floor.toUsize
  let upper_idx := rank.ceil.toUsize
  if lower_idx = upper_idx then data.getD lower_idx F64.zero
  else
    let weight := rank.sub (F64.ofNat lower_idx)
    ((data.getD lower_idx F64.zero).mul ((F64.ofNat 1).sub weight)).add
      ((data.getD upper_idx F64.zero).mul weight)

/-- The finalize-time promotion rule as §4.2 of the specification words
it, on the accumulated counts. -/
def specInferRule (total null_count integer_count float_count boolean_count : Nat) :
    DataType :=
  let non_null := total - null_count
  if non_null = 0 then .string
  else if integer_count = non_null then .integer
  else if integer_count + float_count = non_null then .float
  else if boolean_count = non_null then .boolean
  else .string

/-! ### Proof helpers -/

/-- The classified types of a cell stream. -/
def typesOf (cells : List Str) : List DataType := cells.map classifyType

/-- The incremental type fold of the statistics aggregator, at the level
of classified types. -/
def foldType (init : Option DataType) (ts : List DataType) : Option DataType :=
  ts.foldl (fun cur t => some (statPromote cur t)) init

/-- Chain evaluation of the promotion fold when no Boolean is present:
`Integer < Float < String`. -/
def chainIFS (a : DataType) (ts : List DataType) : DataType :=
  if a = .string ∨ .string ∈ ts then .string
  else if a = .float ∨ .float ∈ ts then .float
  else .integer

/-- Chain evaluation of the promotion fold over `{Boolean, String}`:
`Boolean < String`. -/
def chainBS (a : DataType) (ts : List DataType) : DataType :=
  if a = .string ∨ .string ∈ ts then .string else .boolean

/-- Number of occurrences of a trimmed value among the non-null cells of
a stream. -/
def occCount (cells : List Str) (v : Str) : Nat :=
  ((cells.filter (fun c => !(is_null c))).map strTrim).count v

/-! ## Claim theorems -/

theorem q_mul_zero (q : Q) : q.mul (Q.ofNat 0) = Q.ofNat 0 := by
  unfold Q.mul Q.ofNat Q.norm2
  simp only [mul_zero, mul_one]
  by_cases hd : ((q.den : Int)) = 0
  · simp [hd]
  · have h0 : ¬ ((q.den : Int) < 0) := by simp
    have hdn : q.den ≠ 0 := fun h => hd (by simp [h])
    simp [hd, h0, Nat.div_self (Nat.pos_of_ne_zero hdn)]

theorem f64_mul_zero_idx (x : F64) :
    (x.mul (F64.ofNat 0)).floor.toUsize = 0 ∧ (x.mul (F64.ofNat 0)).ceil.toUsize = 0 := by
  rcases x with _ | b | q
  · exact ⟨by decide, by decide⟩
  · have hm : F64.mul (F64.inf b) (F64.ofNat 0) = F64.nan := by
      simp [F64.mul, F64.ofNat, Q.ofNat]
    rw [hm]
    exact ⟨by decide, by decide⟩
  · have hm : F64.mul (F64.fin q) (F64.ofNat 0) = F64.fin (Q.ofNat 0) := by
      show F64.fin (q.mul (Q.ofNat 0)) = F64.fin (Q.ofNat 0)
      rw [q_mul_zero]
    rw [hm]
    exact ⟨by decide, by decide⟩

theorem schemaNullLeTotal (cells : List Str) (acc : ColumnTypeAccumulator)
    (h : acc.null_count ≤ acc.total_count) :
    (cells.foldl ColumnTypeAccumulator.add_value acc).null_count
      ≤ (cells.foldl ColumnTypeAccumulator.add_value acc).total_count := by
  induction cells generalizing acc with
  | nil => exact h
  | cons c cs ih =>
    refine ih _ ?_
    unfold ColumnTypeAccumulator.add_value
    split
    · exact Nat.le_trans (Nat.succ_le_succ h) (Nat.le_refl _)
    · split <;> exact Nat.le_trans h (Nat.le_succ _)

/-- C1, counterexample: feeding the non-null cells `"1"` then `"true"` to
the statistics aggregator folds the column type to `Integer`, while the
Type Inferencer's finalize rule on the same cells gives `String` (the
least upper bound the claim demands, since Boolean mixed with Integer
must collapse to `String`); the reversed stream folds to `Boolean`, so
the pairwise fold is not even commutative, and it is not associative
either. -/
theorem c1_promotion_lattice_counterexample :
    (statsAccOf [("1").data, ("true").data]).data_type = some DataType.integer
    ∧ (schemaAccOf [("1").data, ("true").data]).infer_type = DataType.string
    ∧ (statsAccOf [("true").data, ("1").data]).data_type = some DataType.boolean
    ∧ statPromote (some DataType.integer) DataType.boolean
        ≠ statPromote (some DataType.boolean) DataType.integer
    ∧ statPromote (some (statPromote (some DataType.integer) DataType.boolean)) DataType.float
        ≠ statPromote (some DataType.integer)
            (statPromote (some DataType.boolean) DataType.float) := by
  refine ⟨by decide, by decide, by decide, by decide, by decide⟩

/-- C2: the claim says the aggregator never fails, and the code intends
exactly that (§4.3 failure semantics; `parse_value` even guards
non-finite floats out of the type lattice), but `add_value` pushes any
`f64`-parsable cell into the percentile buffer, so the cell `"nan"`
plants a `NaN` there and `finalize`'s
`sort_by(|a, b| a.partial_cmp(b).unwrap())` panics: evaluated on the
cells `["nan", "1"]`, the embedded `finalize` is `none` (panic). -/
theorem c2_finalize_panics_on_nan :
    (statsAccOf [("nan").data, ("1").data]).numeric_values
        = [F64.nan, F64.fin ⟨1, 1⟩]
    ∧ (statsAccOf [("nan").data, ("1").data]).finalize
        (statsAccOf [("nan").data, ("1").data]).value_counts = none := by
  refine ⟨by decide, by decide⟩

/-- C3, counterexample: the claim says the scanner splits only outside
parenthesis **and bracket** nesting, but `find_operator` tracks only
parentheses, so on `x == [1 || x == 2]` it splits at the `||` inside the
brackets (index 8) — where the specification's scanner
(`find_operator_spec`, which does track brackets) finds no top-level
operator — and the parser consequently returns a disjunction of two
comparisons instead of one comparison. -/
theorem c3_bracket_scan_counterexample :
    find_operator ("x == [1 || x == 2]").data (("||").data) = some 8
    ∧ find_operator_spec ("x == [1 || x == 2]").data (("||").data) = none
    ∧ filterParse ("x == [1 || x == 2]").data [("x").data]
        = .ok (Expr.or (Expr.compare ("x").data .eq (.str ("[1").data))
            (Expr.compare ("x").data .eq (.str ("2]").data))) := by
  refine ⟨by decide, by decide, by decide⟩

/-- C3, amended: square brackets are not tracked by the top-level
operator scan (only quotes and parentheses are); with that correction the
claim holds: on the example filter the scanner picks the first `||`
outside quotes and parentheses (index 21, tested before `&&`, whose first
occurrence is index 9), and compilation against a header containing
`age` and `status` yields `Or(And(age > 20, age < 30), status == "VIP")`.
-/
theorem c3_split_amended :
    find_operator ("age > 20 && age < 30 || status == \"VIP\"").data (("||").data)
        = some 21
    ∧ find_operator ("age > 20 && age < 30 || status == \"VIP\"").data (("&&").data)
        = some 9
    ∧ filterParse ("age > 20 && age < 30 || status == \"VIP\"").data
        [("age").data, ("status").data]
      = .ok (Expr.or
          (Expr.and (Expr.compare ("age").data .gt (.number (F64.fin ⟨20, 1⟩)))
            (Expr.compare ("age").data .lt (.number (F64.fin ⟨30, 1⟩))))
          (Expr.compare ("status").data .eq (.str ("VIP").data))) := by
  refine ⟨by decide, by decide, by decide⟩

/-- C4, counterexample: compiling `nmae == "x"` against a header
containing `name` does fail with a column-not-found error, but
`validate_column` attaches **no** suggestion (`None`), not the suggestion
`"name"` the claim promises. -/
theorem c4_no_suggestion_counterexample :
    filterParse ("nmae == \"x\"").data [("name").data]
        = .error (.columnNotFound ("nmae").data none)
    ∧ (none : Option Str) ≠ some ("name").data := by
  refine ⟨by decide, by decide⟩

/-- C4, amended: every filter reference to a column absent from the
header fails with a `ColumnNotFound` condition that carries **no**
suggestion; the similar-name helper (case-insensitive exact match first,
else minimum edit distance at most 2) exists — column selection uses it
— and on `"nmae"` against a header containing `"name"` it would return
`"name"`, but the filter compiler never invokes it. -/
theorem c4_column_not_found_amended (col : Str) (cols : Str → Option Nat)
    (h : cols col = none) :
    validate_column col cols = .error (.columnNotFound col none)
    ∧ filterParse ("nmae == \"x\"").data [("name").data]
        = .error (.columnNotFound ("nmae").data none)
    ∧ find_similar_column ("nmae").data [("name").data] = some ("name").data := by
  refine ⟨?_, by decide, by decide⟩
  simp [validate_column, h]

/-- C4, witness: the reference `nmae` against the header `[name]`. -/
theorem c4_column_not_found_witness :
    columnIndexMap [("name").data] (("nmae").data) = none
    ∧ (validate_column (("nmae").data) (columnIndexMap [("name").data])
          = .error (.columnNotFound ("nmae").data none)
        ∧ filterParse ("nmae == \"x\"").data [("name").data]
            = .error (.columnNotFound ("nmae").data none)
        ∧ find_similar_column ("nmae").data [("name").data] = some ("name").data) :=
  ⟨by decide,
   c4_column_not_found_amended (("nmae").data) (columnIndexMap [("name").data]) (by decide)⟩

/-- C5, counterexample: for the cells `a, b, a, b` the first-seen order
of the tied values is `a` before `b` (that is the `value_counts`
insertion order), yet under the hash map iteration order that yields
`b` first — a permutation of the contents, hence an admissible run of
`HashMap::into_iter` — the finalized top-K list is `[(b,2),(a,2)]`: the
tie is broken by iteration order, not by first-seen order. -/
theorem c5_tie_order_counterexample :
    (statsAccOf [("a").data, ("b").data, ("a").data, ("b").data]).value_counts
        = [(("a").data, 2), (("b").data, 2)]
    ∧ List.Perm [(("b").data, 2), (("a").data, 2)]
        (statsAccOf [("a").data, ("b").data, ("a").data, ("b").data]).value_counts
    ∧ ((statsAccOf [("a").data, ("b").data, ("a").data, ("b").data]).finalize
          [(("b").data, 2), (("a").data, 2)]).map (·.top_values)
        = some (some [(("b").data, 2), (("a").data, 2)])
    ∧ [(("b").data, 2), (("a").data, 2)] ≠ [(("a").data, 2), (("b").data, 2)] := by
  refine ⟨by decide, by decide, by decide, by decide⟩

/-- C7, counterexample: the claim quantifies over **every** column name
valid in the header.  For the header column named `a) || is_null(b`
(alongside columns `a` and `b`), both `is_null(c)` and `is_not_null(c)`
compile — to `is_null(a) || is_null(b)` and
`is_not_null(a) || is_null(b)` respectively — and on the row whose `a`
and `b` cells are empty both evaluate to `true`, not to opposite
booleans. -/
theorem c7_negation_counterexample :
    (columnIndexMap [("a").data, ("b").data, ("a) || is_null(b").data]
        (("a) || is_null(b").data)).isSome = true
    ∧ filterParse (("is_null(").data ++ ("a) || is_null(b").data ++ (")").data)
        [("a").data, ("b").data, ("a) || is_null(b").data]
      = .ok (Expr.or (Expr.isNull ("a").data) (Expr.isNull ("b").data))
    ∧ filterParse (("is_not_null(").data ++ ("a) || is_null(b").data ++ (")").data)
        [("a").data, ("b").data, ("a) || is_null(b").data]
      = .ok (Expr.or (Expr.isNotNull ("a").data) (Expr.isNull ("b").data))
    ∧ eval_expr (fun _ _ => false)
        (Expr.or (Expr.isNull ("a").data) (Expr.isNull ("b").data)) [[], []]
        (columnIndexMap [("a").data, ("b").data, ("a) || is_null(b").data]) = true
    ∧ eval_expr (fun _ _ => false)
        (Expr.or (Expr.isNotNull ("a").data) (Expr.isNull ("b").data)) [[], []]
        (columnIndexMap [("a").data, ("b").data, ("a) || is_null(b").data]) = true
    ∧ (true : Bool) ≠ !true := by
  refine ⟨by decide, by decide, by decide, by decide, by decide, by decide⟩

theorem dropWhile_head_false (p : α → Bool) (l : List α) (a : α) (as : List α)
    (h : List.dropWhile p l = a :: as) : p a = false := by
  induction l with
  | nil => simp at h
  | cons x xs ih =>
    rw [List.dropWhile_cons] at h
    split at h
    · exact ih h
    · cases h
      rename_i hpx
      simpa using hpx

theorem dropWhile_idem (p : α → Bool) (l : List α) :
    List.dropWhile p (List.dropWhile p l) = List.dropWhile p l := by
  rcases h : List.dropWhile p l with _ | ⟨a, as⟩
  · rfl
  · rw [List.dropWhile_cons, dropWhile_head_false p l a as h]
    simp

theorem getLast?_dropWhile (p : α → Bool) (l : List α)
    (h : List.dropWhile p l ≠ []) :
    (List.dropWhile p l).getLast? = l.getLast? := by
  induction l with
  | nil => rfl
  | cons x xs ih =>
    rw [List.dropWhile_cons]
    rw [List.dropWhile_cons] at h
    split
    · rename_i hpx
      rw [if_pos hpx] at h
      rcases hxs : xs with _ | ⟨y, ys⟩
      · subst hxs
        simp at h
      · rw [← hxs, ih (by rw [hxs] at h ⊢; exact h), hxs, List.getLast?_cons_cons]
    · rfl

theorem trim_eq_self (s : Str)
    (h1 : ∀ a, s.head? = some a → a.isWhitespace = false)
    (h2 : ∀ a, s.getLast? = some a → a.isWhitespace = false) :
    strTrim s = s := by
  unfold strTrim
  have hd : List.dropWhile Char.isWhitespace s = s := by
    rcases hs : s with _ | ⟨a, as⟩
    · rfl
    · rw [List.dropWhile_cons, if_neg]
      rw [h1 a (by rw [hs]; rfl)]
      simp
  rw [hd]
  have hr : List.dropWhile Char.isWhitespace s.reverse = s.reverse := by
    rcases hs : s.reverse with _ | ⟨a, as⟩
    · rfl
    · rw [List.dropWhile_cons, if_neg]
      have : s.getLast? = some a := by
        rw [← List.head?_reverse, hs]
        rfl
      rw [h2 a this]
      simp
  rw [hr, List.reverse_reverse]

theorem trim_idem (s : Str) : strTrim (strTrim s) = strTrim s := by
  rcases he : strTrim s with _ | ⟨a, as⟩
  · rfl
  · rw [← he]
    apply trim_eq_self
    · intro b hb
      unfold strTrim at hb
      rw [List.head?_reverse] at hb
      have hne : List.dropWhile Char.isWhitespace
          (List.dropWhile Char.isWhitespace s).reverse ≠ [] := by
        intro hnil
        unfold strTrim at he
        rw [hnil] at he
        simp at he
      rw [getLast?_dropWhile _ _ hne, List.getLast?_reverse] at hb
      rcases hdw : List.dropWhile Char.isWhitespace s with _ | ⟨c, cs⟩
      · rw [hdw] at hb
        simp at hb
      · rw [hdw] at hb
        simp only [List.head?_cons, Option.some.injEq] at hb
        subst hb
        exact dropWhile_head_false _ s c cs hdw
    · intro b hb
      unfold strTrim at hb
      rw [List.getLast?_reverse] at hb
      rcases hdw : List.dropWhile Char.isWhitespace
          (List.dropWhile Char.isWhitespace s).reverse with _ | ⟨c, cs⟩
      · rw [hdw] at hb
        simp at hb
      · rw [hdw] at hb
        simp only [List.head?_cons, Option.some.injEq] at hb
        subst hb
        exact dropWhile_head_false _ _ c cs hdw

theorem parse_value_trim (s : Str) : parse_value (strTrim s) = parse_value s := by
  unfold parse_value
  rw [trim_idem]

theorem add_value_data_type (acc : ColumnAccumulator) (c : Str) (h : ¬ is_null c) :
    (acc.add_value c).data_type = some (statPromote acc.data_type (classifyType c)) := by
  unfold ColumnAccumulator.add_value
  simp only [h, Bool.false_eq_true, if_false, if_neg]
  have hclass : (parse_value (strTrim c)).1 = classifyType c := by
    rw [parse_value_trim]
    rfl
  rcases hp : parseF64 (strTrim c) with _ | num <;> simp [hp, hclass]

theorem stats_data_type_eq (cells : List Str) (acc : ColumnAccumulator)
    (h : ∀ c ∈ cells, ¬ is_null c) :
    (List.foldl ColumnAccumulator.add_value acc cells).data_type
      = foldType acc.data_type (typesOf cells) := by
  induction cells generalizing acc with
  | nil => rfl
  | cons c cs ih =>
    simp only [List.foldl_cons, typesOf, List.map_cons]
    rw [ih _ (fun x hx => h x (List.mem_cons_of_mem c hx))]
    rw [add_value_data_type acc c (h c (List.mem_cons_self c cs))]
    rfl

theorem schema_fold_counts (cells : List Str) (acc : ColumnTypeAccumulator)
    (h : ∀ c ∈ cells, ¬ is_null c) :
    List.foldl ColumnTypeAccumulator.add_value acc cells
      = ⟨acc.name, acc.total_count + cells.length, acc.null_count,
         acc.integer_count + (typesOf cells).count .integer,
         acc.float_count + (typesOf cells).count .float,
         acc.boolean_count + (typesOf cells).count .boolean,
         acc.string_count + (typesOf cells).count .string⟩ := by
  induction cells generalizing acc with
  | nil =>
    simp [typesOf]
  | cons c cs ih =>
    have hc := h c (List.mem_cons_self c cs)
    have hcs : ∀ x ∈ cs, ¬ is_null x := fun x hx => h x (List.mem_cons_of_mem c hx)
    simp only [List.foldl_cons]
    rw [ih _ hcs]
    unfold ColumnTypeAccumulator.add_value
    simp only [hc, Bool.false_eq_true, if_false, if_neg]
    simp only [typesOf, List.map_cons, List.count_cons]
    rcases ht : (parse_value c).1 <;>
      · simp only [classifyType, ht]
        refine ColumnTypeAccumulator.mk.injEq .. |>.mpr ?_
        simp
        omega

theorem count4 (ts : List DataType) :
    ts.count .integer + ts.count .float + ts.count .boolean + ts.count .string
      = ts.length := by
  induction ts with
  | nil => rfl
  | cons t rest ih =>
    rcases t <;> simp [List.count_cons] <;> omega

theorem statPromote_ne_boolean (a t : DataType) (ha : a ≠ .boolean) (ht : t ≠ .boolean) :
    statPromote (some a) t ≠ .boolean := by
  rcases a <;> rcases t <;> simp_all [statPromote]

theorem foldType_chainIFS (ts : List DataType) (a : DataType)
    (ha : a ≠ .boolean) (hts : ∀ t ∈ ts, t ≠ .boolean) :
    foldType (some a) ts = some (chainIFS a ts) := by
  induction ts generalizing a with
  | nil =>
    rcases a <;> simp [foldType, chainIFS] <;> simp at ha
  | cons t rest ih =>
    have ht := hts t (List.mem_cons_self t rest)
    have hrest : ∀ x ∈ rest, x ≠ .boolean := fun x hx => hts x (List.mem_cons_of_mem t hx)
    have hstep : foldType (some a) (t :: rest)
        = foldType (some (statPromote (some a) t)) rest := rfl
    rw [hstep, ih (statPromote (some a) t) (statPromote_ne_boolean a t ha ht) hrest]
    rcases a <;> rcases t <;>
      first
        | (exact absurd rfl ha)
        | (exact absurd rfl ht)
        | (by_cases hS : DataType.string ∈ rest <;>
            by_cases hF : DataType.float ∈ rest <;>
            simp [chainIFS, statPromote, List.mem_cons, hS, hF])

theorem foldType_chainBS (ts : List DataType) (a : DataType)
    (ha : a = .boolean ∨ a = .string)
    (hts : ∀ t ∈ ts, t = .boolean ∨ t = .string) :
    foldType (some a) ts = some (chainBS a ts) := by
  induction ts generalizing a with
  | nil =>
    rcases ha with rfl | rfl <;> simp [foldType, chainBS]
  | cons t rest ih =>
    have ht := hts t (List.mem_cons_self t rest)
    have hrest : ∀ x ∈ rest, x = .boolean ∨ x = .string :=
      fun x hx => hts x (List.mem_cons_of_mem t hx)
    have hstep : foldType (some a) (t :: rest)
        = foldType (some (statPromote (some a) t)) rest := rfl
    have hpr : statPromote (some a) t = .boolean ∨ statPromote (some a) t = .string := by
      rcases ha with rfl | rfl <;> rcases ht with rfl | rfl <;> simp [statPromote]
    rw [hstep, ih (statPromote (some a) t) hpr hrest]
    rcases ha with rfl | rfl <;> rcases ht with rfl | rfl <;>
      by_cases hS : DataType.string ∈ rest <;>
        simp [chainBS, statPromote, List.mem_cons, hS]

theorem insertStable_perm (le : α → α → Bool) (x : α) (l : List α) :
    (insertStable le x l).Perm (x :: l) := by
  induction l with
  | nil => exact List.Perm.refl _
  | cons y ys ih =>
    unfold insertStable
    split
    · exact ((ih.cons y).trans (List.Perm.swap x y ys))
    · exact List.Perm.refl _

theorem stableSort_foldl_perm (le : α → α → Bool) (l acc : List α) :
    (List.foldl (fun acc x => insertStable le x acc) acc l).Perm (acc ++ l) := by
  induction l generalizing acc with
  | nil => simp
  | cons x xs ih =>
    refine (ih (insertStable le x acc)).trans ?_
    refine (List.Perm.append_right xs (insertStable_perm le x acc)).trans ?_
    exact List.perm_middle.symm

theorem stableSort_perm (le : α → α → Bool) (l : List α) : (stableSort le l).Perm l := by
  simpa using stableSort_foldl_perm le l []

theorem insertStable_sorted (x : Str × Nat) (l : List (Str × Nat))
    (h : List.Pairwise (fun a b : Str × Nat => b.2 ≤ a.2) l) :
    List.Pairwise (fun a b : Str × Nat => b.2 ≤ a.2) (insertStable countGe x l) := by
  induction l with
  | nil => simp [insertStable]
  | cons y ys ih =>
    unfold insertStable
    rcases h with _ | ⟨hy, hys⟩
    split
    · rename_i hle
      have hxy : x.2 ≤ y.2 := by simpa [countGe] using hle
      refine List.Pairwise.cons ?_ (ih hys)
      intro z hz
      have hz' : z ∈ x :: ys := (insertStable_perm countGe x ys).mem_iff.mp hz
      rcases List.mem_cons.mp hz' with rfl | hzys
      · exact hxy
      · exact hy z hzys
    · rename_i hle
      have hyx : y.2 ≤ x.2 := by
        simp [countGe] at hle
        omega
      refine List.Pairwise.cons ?_ (List.Pairwise.cons hy hys)
      intro z hz
      rcases List.mem_cons.mp hz with rfl | hzys
      · exact hyx
      · exact Nat.le_trans (hy z hzys) hyx

theorem stableSort_sorted_counts (l : List (Str × Nat)) :
    List.Pairwise (fun a b : Str × Nat => b.2 ≤ a.2) (stableSort countGe l) := by
  have main : ∀ (l acc : List (Str × Nat)),
      List.Pairwise (fun a b : Str × Nat => b.2 ≤ a.2) acc →
      List.Pairwise (fun a b : Str × Nat => b.2 ≤ a.2)
        (List.foldl (fun acc x => insertStable countGe x acc) acc l) := by
    intro l
    induction l with
    | nil => intro acc h; exact h
    | cons x xs ih => intro acc h; exact ih _ (insertStable_sorted x acc h)
  exact main l [] (List.Pairwise.nil)

theorem bumpCount_lookup (l : List (Str × Nat)) (v t : Str) :
    List.lookup v (bumpCount l t)
      = if v = t then some ((List.lookup v l).getD 0 + 1) else List.lookup v l := by
  induction l with
  | nil =>
    by_cases hvt : v = t
    · simp [bumpCount, List.lookup, hvt]
    · simp [bumpCount, List.lookup, hvt, beq_eq_false_iff_ne.mpr hvt]
  | cons kn rest ih =>
    obtain ⟨k, n⟩ := kn
    unfold bumpCount
    by_cases hkt : k = t
    · subst hkt
      by_cases hvt : v = k
      · subst hvt
        simp [List.lookup]
      · simp [List.lookup, hvt, beq_eq_false_iff_ne.mpr hvt]
    · rw [if_neg hkt]
      by_cases hvk : v = k
      · subst hvk
        simp [List.lookup, hkt]
      · simp [List.lookup, beq_eq_false_iff_ne.mpr hvk, hvk, ih]

theorem add_value_vc (acc : ColumnAccumulator) (c : Str) :
    (acc.add_value c).value_counts
      = if is_null c then acc.value_counts
        else bumpCount acc.value_counts (strTrim c) := by
  unfold ColumnAccumulator.add_value
  by_cases h : is_null c
  · simp [h]
  · simp only [h, Bool.false_eq_true, if_false, if_neg]
    rcases hp : parseF64 (strTrim c) with _ | num <;> simp [hp]

theorem statsVC_lookup (cells : List Str) (acc : ColumnAccumulator) (v : Str) :
    List.lookup v (List.foldl ColumnAccumulator.add_value acc cells).value_counts
      = match List.lookup v acc.value_counts with
        | some k => some (k + occCount cells v)
        | none => if 0 < occCount cells v then some (occCount cells v) else none := by
  induction cells generalizing acc with
  | nil =>
    rcases h : List.lookup v acc.value_counts with _ | k <;> simp [occCount, h]
  | cons c cs ih =>
    by_cases hn : is_null c
    · have hocc : occCount (c :: cs) v = occCount cs v := by
        simp [occCount, hn]
      have hvc : (acc.add_value c).value_counts = acc.value_counts := by
        rw [add_value_vc, if_pos hn]
      simp only [List.foldl_cons]
      rw [ih (acc.add_value c), hvc, hocc]
    · have hvc : (acc.add_value c).value_counts = bumpCount acc.value_counts (strTrim c) := by
        rw [add_value_vc, if_neg hn]
      have hocc : occCount (c :: cs) v
          = occCount cs v + (if strTrim c = v then 1 else 0) := by
        simp only [occCount, List.filter_cons, hn]
        by_cases hvt : strTrim c = v
        · simp [hvt, List.count_cons]
        · simp [List.count_cons, hvt, beq_eq_false_iff_ne.mpr hvt]
      simp only [List.foldl_cons]
      rw [ih (acc.add_value c), hvc, bumpCount_lookup]
      by_cases hvt : v = strTrim c
      · have hvt' : strTrim c = v := hvt.symm
        rw [if_pos hvt, hocc, if_pos hvt']
        rcases h : List.lookup v acc.value_counts with _ | k
        · simp [h]
          omega
        · simp [h]
          omega
      · have hvt' : ¬ strTrim c = v := fun hh => hvt hh.symm
        rw [if_neg hvt, hocc, if_neg hvt']
        rcases h : List.lookup v acc.value_counts with _ | k <;> simp [h]

theorem chainIFS_eq_cascade (t0 : DataType) (tss : List DataType)
    (hB : ∀ t ∈ t0 :: tss, t ≠ DataType.boolean) :
    chainIFS t0 tss
      = (if (t0 :: tss).count DataType.integer = (t0 :: tss).length then DataType.integer
         else if (t0 :: tss).count DataType.integer + (t0 :: tss).count DataType.float
             = (t0 :: tss).length then DataType.float
         else if (t0 :: tss).count DataType.boolean = (t0 :: tss).length then
           DataType.boolean
         else DataType.string) := by
  have hsum := count4 (t0 :: tss)
  have hB0 : (t0 :: tss).count DataType.boolean = 0 :=
    List.count_eq_zero.mpr (fun hmem => absurd rfl (hB _ hmem))
  have hn : 0 < (t0 :: tss).length := by simp
  by_cases hS : DataType.string ∈ t0 :: tss
  · have hSpos : 0 < (t0 :: tss).count DataType.string := List.count_pos_iff.mpr hS
    have hSmem : t0 = DataType.string ∨ DataType.string ∈ tss := by
      rcases List.mem_cons.mp hS with h | h
      · exact Or.inl h.symm
      · exact Or.inr h
    rw [chainIFS, if_pos hSmem]
    rw [if_neg (by omega), if_neg (by omega), if_neg (by omega)]
  · have hS0 : (t0 :: tss).count DataType.string = 0 := List.count_eq_zero.mpr hS
    have hSne : ¬ (t0 = DataType.string ∨ DataType.string ∈ tss) := by
      rw [List.mem_cons] at hS
      intro hcon
      rcases hcon with h | h
      · exact hS (Or.inl h.symm)
      · exact hS (Or.inr h)
    by_cases hF : DataType.float ∈ t0 :: tss
    · have hFpos : 0 < (t0 :: tss).count DataType.float := List.count_pos_iff.mpr hF
      have hFmem : t0 = DataType.float ∨ DataType.float ∈ tss := by
        rcases List.mem_cons.mp hF with h | h
        · exact Or.inl h.symm
        · exact Or.inr h
      rw [chainIFS, if_neg hSne, if_pos hFmem]
      rw [if_neg (by omega), if_pos (by omega)]
    · have hF0 : (t0 :: tss).count DataType.float = 0 := List.count_eq_zero.mpr hF
      have hFne : ¬ (t0 = DataType.float ∨ DataType.float ∈ tss) := by
        rw [List.mem_cons] at hF
        intro hcon
        rcases hcon with h | h
        · exact hF (Or.inl h.symm)
        · exact hF (Or.inr h)
      rw [chainIFS, if_neg hSne, if_neg hFne, if_pos (by omega)]

theorem chainBS_eq_cascade (t0 : DataType) (tss : List DataType)
    (hBS : ∀ t ∈ t0 :: tss, t = DataType.boolean ∨ t = DataType.string) :
    chainBS t0 tss
      = (if (t0 :: tss).count DataType.integer = (t0 :: tss).length then DataType.integer
         else if (t0 :: tss).count DataType.integer + (t0 :: tss).count DataType.float
             = (t0 :: tss).length then DataType.float
         else if (t0 :: tss).count DataType.boolean = (t0 :: tss).length then
           DataType.boolean
         else DataType.string) := by
  have hsum := count4 (t0 :: tss)
  have hI0 : (t0 :: tss).count DataType.integer = 0 :=
    List.count_eq_zero.mpr (fun hmem => by rcases hBS _ hmem with h | h <;> simp at h)
  have hF0 : (t0 :: tss).count DataType.float = 0 :=
    List.count_eq_zero.mpr (fun hmem => by rcases hBS _ hmem with h | h <;> simp at h)
  have hn : 0 < (t0 :: tss).length := by simp
  by_cases hS : DataType.string ∈ t0 :: tss
  · have hSpos : 0 < (t0 :: tss).count DataType.string := List.count_pos_iff.mpr hS
    have hSmem : t0 = DataType.string ∨ DataType.string ∈ tss := by
      rcases List.mem_cons.mp hS with h | h
      · exact Or.inl h.symm
      · exact Or.inr h
    rw [chainBS, if_pos hSmem]
    rw [if_neg (by omega), if_neg (by omega), if_neg (by omega)]
  · have hS0 : (t0 :: tss).count DataType.string = 0 := List.count_eq_zero.mpr hS
    have hSne : ¬ (t0 = DataType.string ∨ DataType.string ∈ tss) := by
      rw [List.mem_cons] at hS
      intro hcon
      rcases hcon with h | h
      · exact hS (Or.inl h.symm)
      · exact hS (Or.inr h)
    rw [chainBS, if_neg hSne]
    rw [if_neg (by omega), if_neg (by omega), if_pos (by omega)]

/-- C1, amended: the incrementally folded column type of the statistics
aggregator equals the Type Inferencer's finalize rule on streams of
non-null cells whose classified types do not mix Boolean with
Integer/Float; restricted to `{Integer, Float, String}` the pairwise
promotion is associative and commutative with String absorbing.  (On
Boolean/numeric mixes the fold keeps the current type — the source match
ends in `(Some(t), _) => t` — and disagrees with the inferencer, which
the counterexample exhibits.) -/
theorem c1_promotion_fold_amended (cells : List Str)
    (hne : cells ≠ [])
    (hnn : ∀ c ∈ cells, ¬ is_null c)
    (hmix : (∀ c ∈ cells, classifyType c ≠ DataType.boolean)
          ∨ (∀ c ∈ cells, classifyType c = DataType.boolean
              ∨ classifyType c = DataType.string)) :
    (statsAccOf cells).data_type = some ((schemaAccOf cells).infer_type)
    ∧ (∀ a ∈ [DataType.integer, DataType.float, DataType.string],
        ∀ b ∈ [DataType.integer, DataType.float, DataType.string],
        ∀ c ∈ [DataType.integer, DataType.float, DataType.string],
        statPromote (some (statPromote (some a) b)) c
          = statPromote (some a) (statPromote (some b) c)
        ∧ statPromote (some a) b = statPromote (some b) a
        ∧ statPromote (some DataType.string) b = DataType.string
        ∧ statPromote (some a) DataType.string = DataType.string) := by
  refine ⟨?_, by decide⟩
  have hstats : (statsAccOf cells).data_type = foldType none (typesOf cells) :=
    stats_data_type_eq cells _ hnn
  have hschema := schema_fold_counts cells (ColumnTypeAccumulator.new []) hnn
  rcases cells with _ | ⟨c0, cs⟩
  · exact absurd rfl hne
  have hlen : (typesOf (c0 :: cs)).length = (c0 :: cs).length := by
    simp [typesOf]
  have htcons : typesOf (c0 :: cs) = classifyType c0 :: typesOf cs := rfl
  have hinfer : (schemaAccOf (c0 :: cs)).infer_type
      = (if (typesOf (c0 :: cs)).count DataType.integer = (typesOf (c0 :: cs)).length
         then DataType.integer
         else if (typesOf (c0 :: cs)).count DataType.integer
             + (typesOf (c0 :: cs)).count DataType.float = (typesOf (c0 :: cs)).length
           then DataType.float
         else if (typesOf (c0 :: cs)).count DataType.boolean
             = (typesOf (c0 :: cs)).length then DataType.boolean
         else DataType.string) := by
    show (List.foldl ColumnTypeAccumulator.add_value (ColumnTypeAccumulator.new [])
        (c0 :: cs)).infer_type = _
    rw [hschema]
    unfold ColumnTypeAccumulator.infer_type
    simp only [ColumnTypeAccumulator.new, Nat.zero_add, Nat.sub_zero, hlen]
    rw [if_neg (by simp)]
  have hfold : foldType none (typesOf (c0 :: cs))
      = foldType (some (classifyType c0)) (typesOf cs) := rfl
  rw [hstats, hinfer, hfold]
  rcases hmix with hmixL | hmixR
  · have hBl : ∀ t ∈ typesOf (c0 :: cs), t ≠ DataType.boolean := by
      intro t ht
      rcases List.mem_map.mp ht with ⟨c, hc, rfl⟩
      exact hmixL c hc
    rw [foldType_chainIFS (typesOf cs) (classifyType c0)
        (hBl _ (by rw [htcons]; exact List.mem_cons_self _ _))
        (fun t ht => hBl t (by rw [htcons]; exact List.mem_cons_of_mem _ ht))]
    rw [htcons] at hBl ⊢
    rw [chainIFS_eq_cascade (classifyType c0) (typesOf cs) hBl]
  · have hBSl : ∀ t ∈ typesOf (c0 :: cs),
        t = DataType.boolean ∨ t = DataType.string := by
      intro t ht
      rcases List.mem_map.mp ht with ⟨c, hc, rfl⟩
      exact hmixR c hc
    rw [foldType_chainBS (typesOf cs) (classifyType c0)
        (hBSl _ (by rw [htcons]; exact List.mem_cons_self _ _))
        (fun t ht => hBSl t (by rw [htcons]; exact List.mem_cons_of_mem _ ht))]
    rw [htcons] at hBSl ⊢
    rw [chainBS_eq_cascade (classifyType c0) (typesOf cs) hBSl]

/-- C1, witness: the integer-then-float stream `["1", "2.5"]`. -/
theorem c1_promotion_fold_witness :
    (statsAccOf [("1").data, ("2.5").data]).data_type
      = some ((schemaAccOf [("1").data, ("2.5").data]).infer_type)
    ∧ (∀ a ∈ [DataType.integer, DataType.float, DataType.string],
        ∀ b ∈ [DataType.integer, DataType.float, DataType.string],
        ∀ c ∈ [DataType.integer, DataType.float, DataType.string],
        statPromote (some (statPromote (some a) b)) c
          = statPromote (some a) (statPromote (some b) c)
        ∧ statPromote (some a) b = statPromote (some b) a
        ∧ statPromote (some DataType.string) b = DataType.string
        ∧ statPromote (some a) DataType.string = DataType.string) :=
  c1_promotion_fold_amended [("1").data, ("2.5").data] (by decide) (by decide)
    (Or.inl (by decide))

theorem findOpAux_none (op : Str) (opc : Char) (t : Str) (hop : op = opc :: t)
    (s : Str) (hnc : opc ∉ s) :
    ∀ (i : Nat) (d : Int) (b e : Bool), findOpAux op s i d b e = none := by
  induction s with
  | nil => intro i d b e; rfl
  | cons x xs ih =>
    intro i d b e
    have hx : opc ≠ x := fun h => hnc (by rw [h]; exact List.mem_cons_self x xs)
    have hxs : opc ∉ xs := fun h => hnc (List.mem_cons_of_mem x h)
    have hpre : List.isPrefixOf op (x :: xs) = false := by
      rw [hop]
      show ((opc == x) && List.isPrefixOf t xs) = false
      rw [beq_eq_false_iff_ne.mpr hx]
      rfl
    unfold findOpAux
    simp only [hpre]
    split_ifs <;> first | (exact ih hxs _ _ _ _) | simp_all

theorem find_operator_none (s op : Str) (opc : Char) (t : Str) (hop : op = opc :: t)
    (hnc : opc ∉ s) : find_operator s op = none :=
  findOpAux_none op opc t hop s hnc 0 0 false false

theorem getLast?_cons_append (x : Char) (l : List Char) (a : Char) :
    (x :: (l ++ [a])).getLast? = some a := by
  rw [← List.cons_append, List.getLast?_concat]

/-- C5, amended: the finalized top-K list is the first five entries of a
stable sort by descending count of the `value_counts` contents **in the
hash map's unspecified iteration order** (any permutation of the
insertion-ordered contents): the counts are the true frequencies of the
distinct trimmed non-null values, the list is in descending count order,
every retained count is at least every omitted count, and its length is
`min 5 (number of distinct values)` — but ties are broken by the
iteration order, not by first-seen insertion order. -/
theorem c5_top_values_amended (cells : List Str) (iter : List (Str × Nat))
    (hperm : iter.Perm (statsAccOf cells).value_counts) :
    (∀ v : Str, List.lookup v (statsAccOf cells).value_counts
        = if 0 < occCount cells v then some (occCount cells v) else none)
    ∧ List.Pairwise (fun a b : Str × Nat => b.2 ≤ a.2) (topValuesOf iter)
    ∧ (∀ x ∈ topValuesOf iter, ∀ y ∈ (stableSort countGe iter).drop 5, y.2 ≤ x.2)
    ∧ (topValuesOf iter).length = min 5 iter.length
    ∧ (stableSort countGe iter).Perm iter := by
  refine ⟨?_, ?_, ?_, ?_, stableSort_perm countGe iter⟩
  · intro v
    have h := statsVC_lookup cells (ColumnAccumulator.new []) v
    simpa [ColumnAccumulator.new, List.lookup] using h
  · exact List.Pairwise.sublist (List.take_sublist 5 _) (stableSort_sorted_counts iter)
  · intro x hx y hy
    have hsorted := stableSort_sorted_counts iter
    have hsplit := (@List.pairwise_append _ (fun a b : Str × Nat => b.2 ≤ a.2)
      ((stableSort countGe iter).take 5) ((stableSort countGe iter).drop 5)).mp
      (by rw [List.take_append_drop]; exact hsorted)
    exact hsplit.2.2 x hx y hy
  · have hlen : (stableSort countGe iter).length = iter.length :=
      (stableSort_perm countGe iter).length_eq
    simp [topValuesOf, List.length_take, hlen]

/-- C5, witness: a single cell `a` with the identity iteration order. -/
theorem c5_top_values_witness :
    List.Perm [(("a").data, 1)] (statsAccOf [("a").data]).value_counts
    ∧ ((∀ v : Str, List.lookup v (statsAccOf [("a").data]).value_counts
          = if 0 < occCount [("a").data] v then some (occCount [("a").data] v) else none)
        ∧ List.Pairwise (fun a b : Str × Nat => b.2 ≤ a.2)
            (topValuesOf [(("a").data, 1)])
        ∧ (∀ x ∈ topValuesOf [(("a").data, 1)],
            ∀ y ∈ (stableSort countGe [(("a").data, 1)]).drop 5, y.2 ≤ x.2)
        ∧ (topValuesOf [(("a").data, 1)]).length = min 5 [(("a").data, 1)].length
        ∧ (stableSort countGe [(("a").data, 1)]).Perm [(("a").data, 1)]) :=
  ⟨by decide, c5_top_values_amended [("a").data] [(("a").data, 1)] (by decide)⟩

/-- C6: `percentile` computes exactly the claimed linear interpolation
(rank `(p/100)*(n-1)`, value the linear blend of the floor- and
ceil-ranked elements — `specPercentile`) on every non-empty buffer, the
percentile fields are absent from `finalize` whenever the numeric buffer
is empty, and for the buffer `[10, 20, 30, 40]` finalize yields
p25 = 17.5, median = 25.0, p75 = 32.5. -/
theorem c6_percentile_linear_interpolation (data : List F64) (p : F64)
    (acc : ColumnAccumulator) (iter : List (Str × Nat))
    (hdata : data ≠ []) (hacc : acc.numeric_values = []) :
    percentile data p = specPercentile data p
    ∧ (acc.finalize iter).map (fun st => (st.median, st.p25, st.p75))
        = some (none, none, none)
    ∧ ((statsAccOf [("10").data, ("20").data, ("30").data, ("40").data]).finalize
          []).map (fun st => (st.median, st.p25, st.p75))
        = some (some (F64.fin ⟨25, 1⟩), some (F64.fin ⟨35, 2⟩), some (F64.fin ⟨65, 2⟩)) := by
  refine ⟨?_, ?_, by decide⟩
  · match data, hdata with
    | [a], _ =>
      show percentile [a] p = specPercentile [a] p
      have hz := f64_mul_zero_idx (p.div (F64.ofNat 100))
      simp only [specPercentile, List.length_singleton, Nat.sub_self]
      rw [hz.1, hz.2]
      simp [percentile]
    | a :: b :: rest, _ =>
      show percentile (a :: b :: rest) p = specPercentile (a :: b :: rest) p
      rw [percentile, if_neg (by simp), if_neg (by simp)]
      rfl
  · simp [ColumnAccumulator.finalize, hacc, sortNumeric, stableSort]

/-- C6, witness: the singleton buffer `[0]` at p = 50 and a fresh
accumulator. -/
theorem c6_percentile_witness :
    percentile [F64.zero] (F64.ofNat 50) = specPercentile [F64.zero] (F64.ofNat 50)
    ∧ ((ColumnAccumulator.new []).finalize []).map
        (fun st => (st.median, st.p25, st.p75)) = some (none, none, none)
    ∧ ((statsAccOf [("10").data, ("20").data, ("30").data, ("40").data]).finalize
          []).map (fun st => (st.median, st.p25, st.p75))
        = some (some (F64.fin ⟨25, 1⟩), some (F64.fin ⟨35, 2⟩), some (F64.fin ⟨65, 2⟩)) :=
  c6_percentile_linear_interpolation [F64.zero] (F64.ofNat 50)
    (ColumnAccumulator.new []) [] (by decide) (by decide)

/-- C9: the Type Inferencer's finalize rule is exactly the claimed
conditional cascade on the accumulated counts (`specInferRule`
transcribes the specification's words), and on every cell stream the
accumulated counts satisfy `null_count ≤ total_count`, so the
`non_null = total - null_count` subtraction never underflows. -/
theorem c9_infer_type_conditional (cells : List Str) :
    (schemaAccOf cells).null_count ≤ (schemaAccOf cells).total_count
    ∧ (schemaAccOf cells).infer_type
        = specInferRule (schemaAccOf cells).total_count (schemaAccOf cells).null_count
            (schemaAccOf cells).integer_count (schemaAccOf cells).float_count
            (schemaAccOf cells).boolean_count := by
  constructor
  · exact schemaNullLeTotal cells (ColumnTypeAccumulator.new []) (Nat.le_refl 0)
  · rfl

/-- C10: when the right-hand literal is numeric and the referenced cell
does not parse (after trimming) as a 64-bit float, both the `==` and the
`!=` comparison evaluate to `false` on that row (`eval_compare`'s
type-mismatch policy), so `!=` is not the negation of `==` on such rows.
-/
theorem c10_numeric_mismatch_false (rm : Str → Str → Bool) (cols : Str → Option Nat)
    (row : List Str) (col : Str) (v : F64)
    (h : parseF64 (strTrim (row.getD ((cols col).getD 0) [])) = none) :
    eval_expr rm (Expr.compare col .eq (.number v)) row cols = false
    ∧ eval_expr rm (Expr.compare col .ne (.number v)) row cols = false := by
  constructor <;> (simp only [eval_expr, eval_compare]; rw [h])

/-- C10, witness: the cell `"abc"` under the literal `5`. -/
theorem c10_numeric_mismatch_witness :
    parseF64 (strTrim (([("abc").data] : List Str).getD
        ((columnIndexMap [("age").data] (("age").data)).getD 0) [])) = none
    ∧ eval_expr (fun _ _ => false)
        (Expr.compare ("age").data .eq (.number (F64.fin ⟨5, 1⟩)))
        [("abc").data] (columnIndexMap [("age").data]) = false
    ∧ eval_expr (fun _ _ => false)
        (Expr.compare ("age").data .ne (.number (F64.fin ⟨5, 1⟩)))
        [("abc").data] (columnIndexMap [("age").data]) = false :=
  ⟨by decide,
   (c10_numeric_mismatch_false (fun _ _ => false) (columnIndexMap [("age").data])
      [("abc").data] (("age").data) (F64.fin ⟨5, 1⟩) (by decide)).1,
   (c10_numeric_mismatch_false (fun _ _ => false) (columnIndexMap [("age").data])
      [("abc").data] (("age").data) (F64.fin ⟨5, 1⟩) (by decide)).2⟩

theorem parseExprFuel_function_ok (cols : Str → Option Nat) (fuel : Nat) (s : Str)
    (htr : strTrim s = s)
    (hor : find_operator s (("||").data) = none)
    (hand : find_operator s (("&&").data) = none)
    (hhead : s.head? = some 'i')
    (e : Expr)
    (hpf : parse_function s cols = .ok (some e)) :
    parseExprFuel cols (fuel + 1) s = .ok e := by
  unfold parseExprFuel
  simp only [htr, hor, hand]
  rw [if_neg ?hnot, if_neg ?hpar]
  case hnot =>
    intro hx
    rw [hhead] at hx
    exact absurd hx.1 (by simp)
  case hpar =>
    intro hx
    rw [hhead] at hx
    exact absurd hx.1 (by simp)
  rw [hpf]
  rfl

/-- C7, amended: for every column name `c` valid in the header that is
trimmed and contains none of the characters `\`, `"`, `(`, `)`, `|`, `&`
(names containing them derail the text-level parse, as the
counterexample shows), `is_null(c)` and `is_not_null(c)` compile to the
`IsNull`/`IsNotNull` nodes, and on every row the two evaluations are
boolean negations of each other. -/
theorem c7_is_null_negation_amended (headers : List Str) (c : Str) (row : List Str)
    (rm : Str → Str → Bool)
    (hvalid : (columnIndexMap headers c).isSome = true)
    (htrim : strTrim c = c)
    (hchars : ∀ ch ∈ c,
      ch ≠ '\\' ∧ ch ≠ '"' ∧ ch ≠ '(' ∧ ch ≠ ')' ∧ ch ≠ '|' ∧ ch ≠ '&') :
    filterParse (("is_null(").data ++ c ++ (")").data) headers = .ok (Expr.isNull c)
    ∧ filterParse (("is_not_null(").data ++ c ++ (")").data) headers
        = .ok (Expr.isNotNull c)
    ∧ eval_expr rm (Expr.isNull c) row (columnIndexMap headers)
        = !eval_expr rm (Expr.isNotNull c) row (columnIndexMap headers) := by
  have hval : validate_column c (columnIndexMap headers) = .ok () := by
    unfold validate_column
    rw [if_pos hvalid]
  have hnp1 : '|' ∉ ('i' :: 's' :: '_' :: 'n' :: 'u' :: 'l' :: 'l' :: '(' :: (c ++ [')'])) := by
    intro h
    simp +decide [List.mem_cons, List.mem_append] at h
    exact absurd rfl (hchars '|' h).2.2.2.2.1
  have hna1 : '&' ∉ ('i' :: 's' :: '_' :: 'n' :: 'u' :: 'l' :: 'l' :: '(' :: (c ++ [')'])) := by
    intro h
    simp +decide [List.mem_cons, List.mem_append] at h
    exact absurd rfl (hchars '&' h).2.2.2.2.2
  have hnp2 : '|' ∉ ('i' :: 's' :: '_' :: 'n' :: 'o' :: 't' :: '_' :: 'n' :: 'u' :: 'l' ::
      'l' :: '(' :: (c ++ [')'])) := by
    intro h
    simp +decide [List.mem_cons, List.mem_append] at h
    exact absurd rfl (hchars '|' h).2.2.2.2.1
  have hna2 : '&' ∉ ('i' :: 's' :: '_' :: 'n' :: 'o' :: 't' :: '_' :: 'n' :: 'u' :: 'l' ::
      'l' :: '(' :: (c ++ [')'])) := by
    intro h
    simp +decide [List.mem_cons, List.mem_append] at h
    exact absurd rfl (hchars '&' h).2.2.2.2.2
  have htrim1 : strTrim ('i' :: 's' :: '_' :: 'n' :: 'u' :: 'l' :: 'l' :: '(' ::
      (c ++ [')'])) = 'i' :: 's' :: '_' :: 'n' :: 'u' :: 'l' :: 'l' :: '(' :: (c ++ [')']) := by
    apply trim_eq_self
    · intro a ha
      simp only [List.head?_cons, Option.some.injEq] at ha
      subst ha
      decide
    · intro a ha
      rw [show ('i' :: 's' :: '_' :: 'n' :: 'u' :: 'l' :: 'l' :: '(' :: (c ++ [')']))
          = (('i' :: 's' :: '_' :: 'n' :: 'u' :: 'l' :: 'l' :: '(' :: c) ++ [')'])
          from by simp, List.getLast?_concat] at ha
      simp only [Option.some.injEq] at ha
      subst ha
      decide
  have htrim2 : strTrim ('i' :: 's' :: '_' :: 'n' :: 'o' :: 't' :: '_' :: 'n' :: 'u' ::
      'l' :: 'l' :: '(' :: (c ++ [')']))
      = 'i' :: 's' :: '_' :: 'n' :: 'o' :: 't' :: '_' :: 'n' :: 'u' :: 'l' :: 'l' :: '(' ::
        (c ++ [')']) := by
    apply trim_eq_self
    · intro a ha
      simp only [List.head?_cons, Option.some.injEq] at ha
      subst ha
      decide
    · intro a ha
      rw [show ('i' :: 's' :: '_' :: 'n' :: 'o' :: 't' :: '_' :: 'n' :: 'u' :: 'l' :: 'l' ::
          '(' :: (c ++ [')']))
          = (('i' :: 's' :: '_' :: 'n' :: 'o' :: 't' :: '_' :: 'n' :: 'u' :: 'l' :: 'l' ::
            '(' :: c) ++ [')'])
          from by simp, List.getLast?_concat] at ha
      simp only [Option.some.injEq] at ha
      subst ha
      decide
  have hlast1 : ('i' :: 's' :: '_' :: 'n' :: 'u' :: 'l' :: 'l' :: '(' ::
      (c ++ [')'])).getLast? = some ')' := by
    rw [show ('i' :: 's' :: '_' :: 'n' :: 'u' :: 'l' :: 'l' :: '(' :: (c ++ [')']))
        = (('i' :: 's' :: '_' :: 'n' :: 'u' :: 'l' :: 'l' :: '(' :: c) ++ [')'])
        from by simp]
    exact List.getLast?_concat _
  have hlast2 : ('i' :: 's' :: '_' :: 'n' :: 'o' :: 't' :: '_' :: 'n' :: 'u' :: 'l' :: 'l' ::
      '(' :: (c ++ [')'])).getLast? = some ')' := by
    rw [show ('i' :: 's' :: '_' :: 'n' :: 'o' :: 't' :: '_' :: 'n' :: 'u' :: 'l' :: 'l' ::
        '(' :: (c ++ [')']))
        = (('i' :: 's' :: '_' :: 'n' :: 'o' :: 't' :: '_' :: 'n' :: 'u' :: 'l' :: 'l' ::
          '(' :: c) ++ [')'])
        from by simp]
    exact List.getLast?_concat _
  have hpf1 : parse_function ('i' :: 's' :: '_' :: 'n' :: 'u' :: 'l' :: 'l' :: '(' ::
      (c ++ [')'])) (columnIndexMap headers) = .ok (some (Expr.isNull c)) := by
    unfold parse_function
    simp only [htrim1]
    rw [if_neg (by simp [List.isPrefixOf]), if_neg (by simp [List.isPrefixOf]),
      if_pos ⟨by simp [List.isPrefixOf], hlast1⟩]
    have hdrop : ((('i' :: 's' :: '_' :: 'n' :: 'u' :: 'l' :: 'l' :: '(' ::
        (c ++ [')'])).drop 8).dropLast) = c := by
      show (c ++ [')']).dropLast = c
      exact List.dropLast_concat
    simp only [hdrop, htrim]
    rw [hval]
    rfl
  have hpf2 : parse_function ('i' :: 's' :: '_' :: 'n' :: 'o' :: 't' :: '_' :: 'n' :: 'u' ::
      'l' :: 'l' :: '(' :: (c ++ [')'])) (columnIndexMap headers)
      = .ok (some (Expr.isNotNull c)) := by
    unfold parse_function
    simp only [htrim2]
    rw [if_neg (by simp [List.isPrefixOf]), if_neg (by simp [List.isPrefixOf]),
      if_neg (by simp [List.isPrefixOf]),
      if_pos ⟨by simp [List.isPrefixOf], hlast2⟩]
    have hdrop : ((('i' :: 's' :: '_' :: 'n' :: 'o' :: 't' :: '_' :: 'n' :: 'u' :: 'l' ::
        'l' :: '(' :: (c ++ [')'])).drop 12).dropLast) = c := by
      show (c ++ [')']).dropLast = c
      exact List.dropLast_concat
    simp only [hdrop, htrim]
    rw [hval]
    rfl
  refine ⟨?_, ?_, ?_⟩
  · rw [show (("is_null(").data ++ c ++ (")").data)
        = 'i' :: 's' :: '_' :: 'n' :: 'u' :: 'l' :: 'l' :: '(' :: (c ++ [')'])
        from by rw [List.append_assoc]; rfl]
    unfold filterParse parse_expr
    exact parseExprFuel_function_ok (columnIndexMap headers) _ _ htrim1
      (find_operator_none _ _ '|' ['|'] rfl hnp1)
      (find_operator_none _ _ '&' ['&'] rfl hna1)
      rfl _ hpf1
  · rw [show (("is_not_null(").data ++ c ++ (")").data)
        = 'i' :: 's' :: '_' :: 'n' :: 'o' :: 't' :: '_' :: 'n' :: 'u' :: 'l' :: 'l' :: '(' ::
          (c ++ [')'])
        from by rw [List.append_assoc]; rfl]
    unfold filterParse parse_expr
    exact parseExprFuel_function_ok (columnIndexMap headers) _ _ htrim2
      (find_operator_none _ _ '|' ['|'] rfl hnp2)
      (find_operator_none _ _ '&' ['&'] rfl hna2)
      rfl _ hpf2
  · simp only [eval_expr]
    exact (Bool.not_not _).symm

/-- C7, amended, witness: the header `[age]`, the column `age`, an empty
row. -/
theorem c7_is_null_negation_witness :
    filterParse (("is_null(").data ++ ("age").data ++ (")").data) [("age").data]
        = .ok (Expr.isNull ("age").data)
    ∧ filterParse (("is_not_null(").data ++ ("age").data ++ (")").data) [("age").data]
        = .ok (Expr.isNotNull ("age").data)
    ∧ eval_expr (fun _ _ => false) (Expr.isNull ("age").data) []
          (columnIndexMap [("age").data])
        = !eval_expr (fun _ _ => false) (Expr.isNotNull ("age").data) []
          (columnIndexMap [("age").data]) :=
  c7_is_null_negation_amended [("age").data] (("age").data) [] (fun _ _ => false)
    (by decide) (by decide) (by decide)

end Csvpeek

